import Mathlib

/-!
Verification of the operation-breakdown similarity engine
(`ob-similarity-service`), a shallow embedding of
`app/utils/text_compare.py`, `app/utils/data_transform.py` and the
in-memory part of `app/utils/get_data.py`.

Modelling conventions:
* Python floats are modelled by `PyFloat`: either a rational number or
  `nan` (the value `np.mean` returns on an empty list).
* A Python function that can raise an exception is modelled as returning
  `Option`, with `none` for the raised exception (`max()` of an empty
  sequence raises `ValueError`; callers that do not catch it propagate
  `none`).
* The five fuzzywuzzy string metrics (`fuzz.ratio`, `fuzz.partial_ratio`,
  `fuzz.token_sort_ratio`, `fuzz.token_set_ratio`, `fuzz.WRatio`) are
  external library functions, not part of this repository; they are
  modelled as an explicit parameter `FuzzMetrics` (a bundle of five
  string-to-rational functions).  Library facts used by some theorems
  (each metric lands in `[0,100]`; each metric is `100` on identical
  strings) appear as explicit hypotheses.
* Python's stable sorts (`list.sort(key=..., reverse=True)`, `sorted`)
  are modelled with Mathlib's stable `List.insertionSort` under the
  corresponding non-strict total relation.  For `NaN` sort keys Python's
  Timsort order is implementation-defined; the embedding deterministically
  places `nan` keys first, and every theorem below that involves sorting
  only constrains runs whose keys are numeric.
-/

/-- A Python float as far as this code can observe it: a rational value or
`nan` (produced by `np.mean` of an empty list). -/
inductive PyFloat where
  | nan : PyFloat
  | num : ℚ → PyFloat
deriving DecidableEq

/-- Addition of Python floats: `nan` propagates. -/
def pfAdd : PyFloat → PyFloat → PyFloat
  | .num a, .num b => .num (a + b)
  | _, _ => .nan

/-- Halving of a Python float: `nan` propagates. -/
def pfHalf : PyFloat → PyFloat
  | .num a => .num (a / 2)
  | .nan => .nan

/-- The comparison the sort embeddings use on sort keys, with `nan` as a
top element (so that descending sorts place `nan` keys first; Python's
behaviour on `nan` keys is implementation-defined and no claim below
depends on it). -/
def pfLe : PyFloat → PyFloat → Prop
  | _, .nan => True
  | .nan, .num _ => False
  | .num x, .num y => x ≤ y

instance : DecidableRel pfLe := fun a b =>
  match a, b with
  | .nan, .nan => .isTrue trivial
  | .num _, .nan => .isTrue trivial
  | .nan, .num _ => .isFalse (fun h => h)
  | .num x, .num y => inferInstanceAs (Decidable (x ≤ y))

/-- The model of gathering per-item results where each item can raise:
`none` as soon as any item raises (used both for the scoring loop over
query pairs and for `[future.result() for future in as_completed(...)]`,
where a raising worker makes the whole comprehension raise). -/
def collect_results (f : α → Option β) : List α → Option (List β)
  | [] => some []
  | a :: l =>
    match f a, collect_results f l with
    | some b, some bs => some (b :: bs)
    | _, _ => none

/-- The model of Python's `max()` over a list of numbers: raises
(`none`) on the empty list. -/
def pythonMax : List ℚ → Option ℚ
  | [] => none
  | a :: l =>
    match pythonMax l with
    | none => some a
    | some m => some (max a m)

/-- The model of `np.mean` over a list of numbers: `nan` on the empty
list, the arithmetic mean otherwise. -/
def npMean (l : List ℚ) : PyFloat :=
  if l.isEmpty then .nan else .num (l.sum / l.length)

/-! ### The similarity scorer (`text_compare.py`) -/

/-- Embedding of `preprocess_text`: lower-case, then normalize
whitespace (split on whitespace runs, re-join with single spaces; the
`strip` calls in the source are no-ops after `split`).  Case-folding is
modelled at ASCII level (`String.toLower`), which covers every string
this development evaluates. -/
def preprocess_text (text : String) : String :=
  " ".intercalate ((text.toLower.split Char.isWhitespace).filter fun w => ¬ w.isEmpty)

/-- The five fuzzywuzzy string-similarity metrics used by
`fuzz_similarity`.  They live in the external `fuzzywuzzy` package, not
in this repository, so the embedding abstracts them as a parameter:
`ratio` is `fuzz.ratio`, `part_ratio` is `fuzz.partial_ratio`,
`token_sort_ratio` and `token_set_ratio` are the homonymous fuzz
functions, and `wratio` is `fuzz.WRatio`. -/
structure FuzzMetrics where
  ratio : String → String → ℚ
  part_ratio : String → String → ℚ
  token_sort_ratio : String → String → ℚ
  token_set_ratio : String → String → ℚ
  wratio : String → String → ℚ

/-- The fuzzywuzzy library guarantees every metric lands in `[0, 100]`
(each is a percentage ratio); theorems needing this take it as an
explicit hypothesis through this predicate. -/
def boundedMetrics (m : FuzzMetrics) : Prop :=
  ∀ s t : String,
    (0 ≤ m.ratio s t ∧ m.ratio s t ≤ 100) ∧
    (0 ≤ m.part_ratio s t ∧ m.part_ratio s t ≤ 100) ∧
    (0 ≤ m.token_sort_ratio s t ∧ m.token_sort_ratio s t ≤ 100) ∧
    (0 ≤ m.token_set_ratio s t ∧ m.token_set_ratio s t ≤ 100) ∧
    (0 ≤ m.wratio s t ∧ m.wratio s t ≤ 100)

/-- The fuzzywuzzy library guarantees every metric is `100` on two
identical strings; theorems needing this take it as an explicit
hypothesis through this predicate. -/
def reflMetrics (m : FuzzMetrics) : Prop :=
  ∀ s : String,
    m.ratio s s = 100 ∧ m.part_ratio s s = 100 ∧
    m.token_sort_ratio s s = 100 ∧ m.token_set_ratio s s = 100 ∧
    m.wratio s s = 100

/-- Embedding of `fuzz_similarity`: the `np.mean` of the five metric
values (a five-element list, so the mean is just the sum over 5). -/
def fuzz_similarity (m : FuzzMetrics) (str1 str2 : String) : ℚ :=
  let simple_ratio := m.ratio str1 str2
  let part_ratio := m.part_ratio str1 str2
  let token_sort_ratio := m.token_sort_ratio str1 str2
  let token_set_ratio := m.token_set_ratio str1 str2
  let wratio := m.wratio str1 str2
  (simple_ratio + part_ratio + token_sort_ratio + token_set_ratio + wratio) / 5

/-- Embedding of `get_similarity_score`: preprocess both texts, then
`fuzz_similarity` (the jaccard/levenshtein/cosine alternatives in the
source are commented out). -/
def get_similarity_score (m : FuzzMetrics) (text1 text2 : String) : ℚ :=
  fuzz_similarity m (preprocess_text text1) (preprocess_text text2)

/-- Embedding of `get_absolute_similarity_score`: `100` when the
preprocessed texts are equal, else `0`. -/
def get_absolute_similarity_score (text1 text2 : String) : ℚ :=
  if preprocess_text text1 = preprocess_text text2 then 100 else 0

/-- The dictionary `compare_ob_v2` returns. -/
structure SimilarityScores where
  operation_similarity_score : PyFloat
  machine_similarity_score : PyFloat
  total_similarity_score : PyFloat
deriving DecidableEq

/-- Body of `compare_ob_v2`'s outer `for` loop for one query pair:
collect, over every reference pair, the operation-name similarity and
the machine-name match, and take `max()` of each score list — raising
(`none`) when the reference list is empty, since `max()` of an empty
sequence raises `ValueError`. -/
def per_query_maxima (m : FuzzMetrics)
    (database_records : List (String × String))
    (operation_data : String × String) : Option (ℚ × ℚ) :=
  let operation_name := operation_data.1
  let machine_name := operation_data.2
  let operation_name_scores := database_records.map fun record =>
    get_similarity_score m operation_name record.1
  let machine_name_scores := database_records.map fun record =>
    get_absolute_similarity_score machine_name record.2
  match pythonMax operation_name_scores, pythonMax machine_name_scores with
  | some max_operation_name_score, some max_machine_name_score =>
    some (max_operation_name_score, max_machine_name_score)
  | _, _ => none

/-- Embedding of `compare_ob_v2`.  For each query pair it takes the two
per-query maxima (propagating the `max()` exception), then averages
them with `np.mean` (which is `nan` when the query list is empty) and
returns the three scores, the total being half the sum of the other
two. -/
def compare_ob_v2 (m : FuzzMetrics)
    (operation_machine_list database_records : List (String × String)) :
    Option SimilarityScores :=
  match collect_results (per_query_maxima m database_records)
      operation_machine_list with
  | none => none
  | some maxima =>
    let avg_operation := npMean (maxima.map Prod.fst)
    let avg_machine := npMean (maxima.map Prod.snd)
    some ⟨avg_operation, avg_machine, pfHalf (pfAdd avg_operation avg_machine)⟩

/-! ### The operation normalizer (`data_transform.py`) -/

/-- The pydantic `OperationData` model: one operation step. -/
structure OperationData where
  operation_name : String
  machine_name : String
  sequence_number : Int
deriving DecidableEq

/-- Sort relation of `sort_ob_data`: ascending `sequence_number`. -/
def obDataLe (a b : OperationData) : Prop :=
  a.sequence_number ≤ b.sequence_number

instance : DecidableRel obDataLe := fun a b =>
  inferInstanceAs (Decidable (a.sequence_number ≤ b.sequence_number))

instance : IsTotal OperationData obDataLe :=
  ⟨fun a b => le_total a.sequence_number b.sequence_number⟩

instance : IsTrans OperationData obDataLe :=
  ⟨fun _ _ _ h₁ h₂ => le_trans h₁ h₂⟩

/-- Embedding of `sort_ob_data`: Python's stable `sorted` by
`sequence_number`, modelled by the stable `List.insertionSort`. -/
def sort_ob_data (operation_data : List OperationData) : List OperationData :=
  List.insertionSort obDataLe operation_data

/-- Embedding of `get_operation_machine_list`: sort by sequence number,
then keep the `(operation_name, machine_name)` pairs. -/
def get_operation_machine_list (operation_data : List OperationData) :
    List (String × String) :=
  (sort_ob_data operation_data).map fun data => (data.operation_name, data.machine_name)

/-- Sort relation of `get_operation_machine_list_db`: ascending third
component of the `(name, machine, seq)` triple. -/
def opTripleLe (a b : String × String × Int) : Prop := a.2.2 ≤ b.2.2

instance : DecidableRel opTripleLe := fun a b =>
  inferInstanceAs (Decidable (a.2.2 ≤ b.2.2))

instance : IsTotal (String × String × Int) opTripleLe :=
  ⟨fun a b => le_total a.2.2 b.2.2⟩

instance : IsTrans (String × String × Int) opTripleLe :=
  ⟨fun _ _ _ h₁ h₂ => le_trans h₁ h₂⟩

/-- Embedding of `get_operation_machine_list_db`: sort the corpus
record's `(name, machine, seq)` triples by sequence, keep the first two
components. -/
def get_operation_machine_list_db (operation_data : List (String × String × Int)) :
    List (String × String) :=
  (List.insertionSort opTripleLe operation_data).map fun data => (data.1, data.2.1)

/-! ### The ranking engine (`text_compare.py`) -/

/-- One corpus record as produced by the corpus adapter
(`get_op_data`): identifier, code, and the flat `(name, machine, seq)`
triples. -/
structure DBRecord where
  layout_id : Int
  layout_code : String
  operation_data : List (String × String × Int)
deriving DecidableEq

/-- One entry of the ranking result list. -/
structure SimilarityResult where
  layout_id : Int
  layout_code : String
  operation_similarity_score : PyFloat
  machine_similarity_score : PyFloat
  total_similarity_score : PyFloat
deriving DecidableEq

/-- Packaging of one record plus its scores into the result dictionary. -/
def mkSimilarityResult (record : DBRecord) (scores : SimilarityScores) :
    SimilarityResult :=
  ⟨record.layout_id, record.layout_code, scores.operation_similarity_score,
    scores.machine_similarity_score, scores.total_similarity_score⟩

/-- Sort relation of `result.sort(key=lambda x: x["total_similarity_score"],
reverse=True)`: descending total score (`nan` keys first, see the header
note). -/
def resultOrder (a b : SimilarityResult) : Prop :=
  pfLe b.total_similarity_score a.total_similarity_score

instance : DecidableRel resultOrder := fun a b =>
  inferInstanceAs (Decidable (pfLe b.total_similarity_score a.total_similarity_score))

instance : IsTotal SimilarityResult resultOrder :=
  ⟨fun a b => by
    show pfLe b.total_similarity_score a.total_similarity_score ∨
      pfLe a.total_similarity_score b.total_similarity_score
    cases b.total_similarity_score <;> cases a.total_similarity_score <;>
      simp [pfLe]
    exact le_total _ _⟩

instance : IsTrans SimilarityResult resultOrder :=
  ⟨fun a b c h₁ h₂ => by
    show pfLe c.total_similarity_score a.total_similarity_score
    revert h₁ h₂
    show pfLe b.total_similarity_score a.total_similarity_score →
      pfLe c.total_similarity_score b.total_similarity_score →
      pfLe c.total_similarity_score a.total_similarity_score
    cases a.total_similarity_score <;> cases b.total_similarity_score <;>
      cases c.total_similarity_score <;> simp [pfLe]
    exact fun h₁ h₂ => le_trans h₂ h₁⟩

/-- Python's stable descending sort of a result list by total score. -/
def pySortDesc (l : List SimilarityResult) : List SimilarityResult :=
  List.insertionSort resultOrder l

/-- Loop body of the sequential `get_ob_similarity_score`: score one
record (propagating a scoring exception), append the packaged result,
and — exactly as in the source, where the `sort` sits inside the `for`
loop — re-sort the accumulated list each iteration. -/
def ob_score_loop (m : FuzzMetrics) (oml : List (String × String)) :
    List DBRecord → List SimilarityResult → Option (List SimilarityResult)
  | [], result => some result
  | record :: rest, result =>
    match compare_ob_v2 m oml (get_operation_machine_list_db record.operation_data) with
    | none => none
    | some similarity_scores =>
      ob_score_loop m oml rest
        (pySortDesc (result ++ [mkSimilarityResult record similarity_scores]))

/-- Embedding of the sequential ranking path
`get_ob_similarity_score`. -/
def get_ob_similarity_score (m : FuzzMetrics)
    (operation_data : List OperationData) (database_records : List DBRecord) :
    Option (List SimilarityResult) :=
  ob_score_loop m (get_operation_machine_list operation_data) database_records []

/-- Embedding of the worker function `process_record`. -/
def process_record (m : FuzzMetrics) (record : DBRecord)
    (operation_machine_list : List (String × String)) : Option SimilarityResult :=
  (compare_ob_v2 m operation_machine_list
    (get_operation_machine_list_db record.operation_data)).map
      (mkSimilarityResult record)

/-- Embedding of the parallel ranking path `get_ob_similarity_score_v2`.
`completion_order` is the order in which `concurrent.futures.as_completed`
yields the workers' futures — an arbitrary permutation of the submitted
`database_records`; theorems quantify over it.  A worker whose record
raises makes `future.result()` re-raise, so any failing record makes the
whole call raise (`none`); otherwise the gathered results are sorted
once, descending by total score. -/
def get_ob_similarity_score_v2 (m : FuzzMetrics)
    (operation_data : List OperationData) (completion_order : List DBRecord) :
    Option (List SimilarityResult) :=
  let operation_machine_list := get_operation_machine_list operation_data
  (collect_results (fun record => process_record m record operation_machine_list)
    completion_order).map pySortDesc

/-! ### The allocation enricher (`get_data.py`) -/

/-- One allocation row, as selected by `add_allocation_data`'s query or
supplied in the caller's datasource.  `run_efficiency` is nullable.
The `float(...)` conversion the source applies to some `run_efficiency`
values only changes the numeric representation (Decimal to float), so the
embedding keeps the value. -/
structure AllocationRecord where
  layout_id : Int
  allocation_id : Int
  allocation_name : String
  hourly_target : ℚ
  run_efficiency : Option ℚ
deriving DecidableEq

/-- Sort relation of `allocation_data.sort(key=lambda x:
(x["run_efficiency"] is None, x["run_efficiency"] or -Inf), reverse=True)`:
descending in the lexicographic `(is-null, value)` key.  Because
`reverse=True` flips the whole key, rows with a null `run_efficiency`
(key component `True`) come FIRST, followed by the numeric rows in
descending value order. -/
def allocOrder (a b : AllocationRecord) : Prop :=
  match a.run_efficiency, b.run_efficiency with
  | none, _ => True
  | some _, none => False
  | some x, some y => y ≤ x

instance : DecidableRel allocOrder := fun a b =>
  match ha : a.run_efficiency, hb : b.run_efficiency with
  | none, none => .isTrue (by simp [allocOrder, ha, hb])
  | none, some _ => .isTrue (by simp [allocOrder, ha, hb])
  | some _, none => .isFalse (by simp [allocOrder, ha, hb])
  | some x, some y =>
    if h : y ≤ x then .isTrue (by simp [allocOrder, ha, hb, h])
    else .isFalse (by simp [allocOrder, ha, hb, h])

instance : IsTotal AllocationRecord allocOrder :=
  ⟨fun a b => by
    cases ha : a.run_efficiency <;> cases hb : b.run_efficiency <;>
      simp [allocOrder, ha, hb]
    exact le_total _ _⟩

instance : IsTrans AllocationRecord allocOrder :=
  ⟨fun a b c h₁ h₂ => by
    cases ha : a.run_efficiency <;> cases hb : b.run_efficiency <;>
        cases hc : c.run_efficiency <;>
      simp_all [allocOrder, ha, hb, hc]
    exact le_trans h₂ h₁⟩

/-- The shape of one enriched result: the original result dictionary
with the `allocation_data` key appended. -/
structure EnrichedResult where
  result : SimilarityResult
  allocation_data : List AllocationRecord
deriving DecidableEq

/-- Embedding of the in-memory part of the database-backed
`add_allocation_data` (the SQL fetch is an external collaborator, so the
fetched rows arrive as the `allocation_data_dict` argument): raise
(`none`, an HTTP 404 in the source) when the fetch came back empty;
otherwise, for each result, keep the rows whose `layout_id` matches,
sort them with `allocOrder` (nulls first, then `run_efficiency`
descending), and attach the first `no_of_allocations` of them. -/
def add_allocation_data (top_results : List SimilarityResult)
    (allocation_data_dict : List AllocationRecord) (no_of_allocations : Nat) :
    Option (List EnrichedResult) :=
  if allocation_data_dict.isEmpty then none
  else some (top_results.map fun result =>
    let matching := allocation_data_dict.filter fun allocation =>
      allocation.layout_id == result.layout_id
    ⟨result, (List.insertionSort allocOrder matching).take no_of_allocations⟩)

/-- Embedding of the caller-supplied-datasource variant
`add_allocation_data_ds`: for each result, keep the datasource rows
whose `layout_id` matches — in datasource order, with NO sorting — and
attach the first `no_of_allocations` of them. -/
def add_allocation_data_ds (top_results : List SimilarityResult)
    (allocation_datasource : List AllocationRecord) (no_of_allocations : Nat) :
    List EnrichedResult :=
  top_results.map fun result =>
    ⟨result, (allocation_datasource.filter fun allocation =>
      allocation.layout_id == result.layout_id).take no_of_allocations⟩

/-! ### A spec-side scorer, and concrete metrics for witnesses -/

/-- Maximum of a list of rationals, written from the spec's words
("take the maximum ... across all reference pairs"); `0` on the empty
list, a case the spec formula never reaches. -/
def specMax : List ℚ → ℚ
  | [] => 0
  | [a] => a
  | a :: l => max a (specMax l)

/-- Arithmetic mean, written from the spec's words ("average ... across
all query operations"). -/
def specMean (l : List ℚ) : ℚ := l.sum / l.length

/-- Modelled from the spec (section 4.2, steps 1–3), for the
aggregation claim C2: for each query pair, the maximum text-similarity
value over all reference pairs and, independently, the maximum
machine-match value over all reference pairs; the two result scalars are
the arithmetic means of those per-query maxima. -/
def scorer_spec (m : FuzzMetrics)
    (query reference : List (String × String)) : ℚ × ℚ :=
  (specMean (query.map fun q =>
      specMax (reference.map fun r => get_similarity_score m q.1 r.1)),
   specMean (query.map fun q =>
      specMax (reference.map fun r => get_absolute_similarity_score q.2 r.2)))

/-- A concrete, fully computable instantiation of one string metric
(exact match), used only to build witnesses. -/
def exactMetric (s t : String) : ℚ := if s = t then 100 else 0

/-- A concrete `FuzzMetrics` bundle for witnesses: all five metrics are
the exact-match metric. -/
def exactMetrics : FuzzMetrics :=
  ⟨exactMetric, exactMetric, exactMetric, exactMetric, exactMetric⟩

theorem collect_results_nil (f : α → Option β) :
    collect_results f [] = some [] := rfl

theorem collect_results_eq_map {f : α → Option β} {g : α → β}
    (l : List α) (h : ∀ a ∈ l, f a = some (g a)) :
    collect_results f l = some (l.map g) := by
  induction l with
  | nil => rfl
  | cons a l ih =>
    have ha := h a (List.mem_cons_self a l)
    have hl := ih (fun x hx => h x (List.mem_cons_of_mem a hx))
    simp [collect_results, ha, hl]

theorem collect_results_eq_none {f : α → Option β} {l : List α}
    (a : α) (ha : a ∈ l) (h : f a = none) :
    collect_results f l = none := by
  induction l with
  | nil => cases ha
  | cons b l ih =>
    rcases List.mem_cons.1 ha with rfl | hmem
    · simp [collect_results, h]
    · simp only [collect_results, ih hmem]
      cases f b <;> rfl

theorem collect_results_isSome {f : α → Option β} {l : List α} {bs : List β}
    (h : collect_results f l = some bs) :
    ∀ a ∈ l, (f a).isSome := by
  intro a ha
  cases hfa : f a with
  | some b => rfl
  | none => rw [collect_results_eq_none a ha hfa] at h; cases h

theorem collect_results_mem {f : α → Option β} {l : List α} {bs : List β}
    (h : collect_results f l = some bs) :
    ∀ b ∈ bs, ∃ a ∈ l, f a = some b := by
  induction l generalizing bs with
  | nil =>
    cases h
    intro b hb; cases hb
  | cons a l ih =>
    simp only [collect_results] at h
    cases hfa : f a with
    | none => rw [hfa] at h; cases h
    | some b₀ =>
      rw [hfa] at h
      cases hrest : collect_results f l with
      | none => rw [hrest] at h; cases h
      | some bs₀ =>
        rw [hrest] at h
        cases h
        intro b hb
        rcases List.mem_cons.1 hb with rfl | hmem
        · exact ⟨a, List.mem_cons_self a l, hfa⟩
        · obtain ⟨a', ha', hfa'⟩ := ih hrest b hmem
          exact ⟨a', List.mem_cons_of_mem a ha', hfa'⟩

theorem collect_results_length {f : α → Option β} {l : List α} {bs : List β}
    (h : collect_results f l = some bs) : bs.length = l.length := by
  induction l generalizing bs with
  | nil => cases h; rfl
  | cons a l ih =>
    simp only [collect_results] at h
    cases hfa : f a with
    | none => rw [hfa] at h; cases h
    | some b₀ =>
      rw [hfa] at h
      cases hrest : collect_results f l with
      | none => rw [hrest] at h; cases h
      | some bs₀ =>
        rw [hrest] at h
        cases h
        simp [ih hrest]

theorem pythonMax_eq_none_iff (l : List ℚ) : pythonMax l = none ↔ l = [] := by
  cases l with
  | nil => simp [pythonMax]
  | cons a l =>
    simp only [pythonMax]
    cases pythonMax l <;> simp

theorem pythonMax_mem {l : List ℚ} {m : ℚ} (h : pythonMax l = some m) :
    m ∈ l := by
  induction l generalizing m with
  | nil => cases h
  | cons a l ih =>
    simp only [pythonMax] at h
    cases hl : pythonMax l with
    | none => rw [hl] at h; cases h; exact List.mem_cons_self a l
    | some m' =>
      rw [hl] at h
      cases h
      rcases max_choice a m' with hc | hc <;> rw [hc]
      · exact List.mem_cons_self a l
      · exact List.mem_cons_of_mem a (ih hl)

theorem pythonMax_le {l : List ℚ} {m : ℚ} (h : pythonMax l = some m) :
    ∀ x ∈ l, x ≤ m := by
  induction l generalizing m with
  | nil => intro x hx; cases hx
  | cons a l ih =>
    simp only [pythonMax] at h
    cases hl : pythonMax l with
    | none =>
      rw [hl] at h; cases h
      intro x hx
      rcases List.mem_cons.1 hx with rfl | hx'
      · exact le_refl x
      · rw [(pythonMax_eq_none_iff l).1 hl] at hx'; cases hx'
    | some m' =>
      rw [hl] at h
      cases h
      intro x hx
      rcases List.mem_cons.1 hx with rfl | hx'
      · exact le_max_left _ _
      · exact le_trans (ih hl x hx') (le_max_right _ _)

theorem pythonMax_eq_of_mem_of_le {l : List ℚ} {m : ℚ}
    (hmem : m ∈ l) (hle : ∀ x ∈ l, x ≤ m) : pythonMax l = some m := by
  cases hmax : pythonMax l with
  | none =>
    rw [(pythonMax_eq_none_iff l).1 hmax] at hmem
    cases hmem
  | some m' =>
    have h₁ : m' ≤ m := hle m' (pythonMax_mem hmax)
    have h₂ : m ≤ m' := pythonMax_le hmax m hmem
    rw [le_antisymm h₁ h₂]

theorem npMean_nil : npMean [] = .nan := rfl

theorem npMean_ne_nil {l : List ℚ} (h : l ≠ []) :
    npMean l = .num (l.sum / l.length) := by
  simp [npMean, h]

theorem npMean_const {l : List ℚ} {c : ℚ} (hne : l ≠ [])
    (h : ∀ x ∈ l, x = c) : npMean l = .num c := by
  rw [npMean_ne_nil hne]
  have hsum : l.sum = l.length * c := by
    induction l with
    | nil => simp
    | cons a l ih =>
      have ha := h a (List.mem_cons_self a l)
      by_cases hl : l = []
      · subst hl; simp [ha]
      · rw [List.sum_cons, ih hl (fun x hx => h x (List.mem_cons_of_mem a hx)), ha]
        simp only [List.length_cons]
        push_cast
        ring
  have hlen : (l.length : ℚ) ≠ 0 := by
    exact_mod_cast (List.length_pos.2 hne).ne'
  rw [hsum]
  field_simp

theorem sum_bounds_of_forall {l : List ℚ} {lo hi : ℚ}
    (h : ∀ x ∈ l, lo ≤ x ∧ x ≤ hi) :
    l.length * lo ≤ l.sum ∧ l.sum ≤ l.length * hi := by
  induction l with
  | nil => simp
  | cons a l ih =>
    have ha := h a (List.mem_cons_self a l)
    have hl := ih (fun x hx => h x (List.mem_cons_of_mem a hx))
    simp only [List.sum_cons, List.length_cons]
    push_cast
    constructor <;> nlinarith [ha.1, ha.2, hl.1, hl.2]

theorem npMean_bounds {l : List ℚ} {lo hi : ℚ} (hne : l ≠ [])
    (h : ∀ x ∈ l, lo ≤ x ∧ x ≤ hi) :
    lo ≤ l.sum / l.length ∧ l.sum / l.length ≤ hi := by
  have hlen : (0 : ℚ) < l.length := by
    exact_mod_cast List.length_pos.2 hne
  obtain ⟨h₁, h₂⟩ := sum_bounds_of_forall h
  constructor
  · rw [le_div_iff hlen]
    linarith
  · rw [div_le_iff hlen]
    linarith

theorem exactMetric_bounds (s t : String) :
    0 ≤ exactMetric s t ∧ exactMetric s t ≤ 100 := by
  unfold exactMetric
  split <;> norm_num

theorem exactMetrics_bounded : boundedMetrics exactMetrics := by
  intro s t
  refine ⟨?_, ?_, ?_, ?_, ?_⟩ <;> exact exactMetric_bounds s t

theorem exactMetrics_refl : reflMetrics exactMetrics := by
  intro s
  refine ⟨?_, ?_, ?_, ?_, ?_⟩ <;> simp [exactMetrics, exactMetric]

/-! ### Characterization lemmas -/

theorem pfLe_antisymm {x y : PyFloat} (h₁ : pfLe x y) (h₂ : pfLe y x) :
    x = y := by
  cases x <;> cases y <;> simp_all [pfLe]
  exact le_antisymm h₁ h₂

theorem pythonMax_eq_specMax : ∀ {l : List ℚ}, l ≠ [] →
    pythonMax l = some (specMax l)
  | [], h => absurd rfl h
  | [a], _ => rfl
  | a :: b :: l, _ => by
    have ih := pythonMax_eq_specMax (l := b :: l) (by simp)
    show (match pythonMax (b :: l) with
      | none => some a
      | some m => some (max a m)) = some (specMax (a :: b :: l))
    rw [ih]
    rfl

theorem per_query_maxima_eq (m : FuzzMetrics)
    {database_records : List (String × String)}
    (operation_data : String × String) (hr : database_records ≠ []) :
    per_query_maxima m database_records operation_data =
      some
        (specMax (database_records.map fun record =>
          get_similarity_score m operation_data.1 record.1),
         specMax (database_records.map fun record =>
          get_absolute_similarity_score operation_data.2 record.2)) := by
  have h₁ : (database_records.map fun record =>
      get_similarity_score m operation_data.1 record.1) ≠ [] := by
    simpa using hr
  have h₂ : (database_records.map fun record =>
      get_absolute_similarity_score operation_data.2 record.2) ≠ [] := by
    simpa using hr
  show (match pythonMax (database_records.map fun record =>
        get_similarity_score m operation_data.1 record.1),
      pythonMax (database_records.map fun record =>
        get_absolute_similarity_score operation_data.2 record.2) with
    | some max_operation_name_score, some max_machine_name_score =>
      some (max_operation_name_score, max_machine_name_score)
    | _, _ => none) = _
  rw [pythonMax_eq_specMax h₁, pythonMax_eq_specMax h₂]

theorem per_query_maxima_empty (m : FuzzMetrics)
    (operation_data : String × String) :
    per_query_maxima m [] operation_data = none := rfl

/-- Normal form of the scorer on non-empty inputs: it agrees with the
spec-side formula, and the total is half the sum of the two scores. -/
theorem compare_ob_v2_eq_spec (m : FuzzMetrics)
    {q r : List (String × String)} (hq : q ≠ []) (hr : r ≠ []) :
    compare_ob_v2 m q r =
      some ⟨.num (scorer_spec m q r).1, .num (scorer_spec m q r).2,
        .num (((scorer_spec m q r).1 + (scorer_spec m q r).2) / 2)⟩ := by
  unfold compare_ob_v2
  rw [collect_results_eq_map q (fun od _ => per_query_maxima_eq m od hr)]
  have hmapj : ∀ f₁ f₂ : (String × String) → ℚ,
      (q.map fun od => ((f₁ od, f₂ od) : ℚ × ℚ)).map Prod.fst = q.map f₁ ∧
      (q.map fun od => ((f₁ od, f₂ od) : ℚ × ℚ)).map Prod.snd = q.map f₂ := by
    intro f₁ f₂
    constructor <;> simp [List.map_map, Function.comp]
  obtain ⟨hfst, hsnd⟩ := hmapj
    (fun od => specMax (r.map fun record => get_similarity_score m od.1 record.1))
    (fun od => specMax (r.map fun record => get_absolute_similarity_score od.2 record.2))
  simp only [hfst, hsnd]
  have hq₁ : (q.map fun od =>
      specMax (r.map fun record => get_similarity_score m od.1 record.1)) ≠ [] := by
    simpa using hq
  have hq₂ : (q.map fun od =>
      specMax (r.map fun record => get_absolute_similarity_score od.2 record.2)) ≠ [] := by
    simpa using hq
  rw [npMean_ne_nil hq₁, npMean_ne_nil hq₂]
  simp [pfAdd, pfHalf, scorer_spec, specMean]

/-- On a non-empty query and an empty reference, the scorer raises
(`max()` of an empty sequence). -/
theorem compare_ob_v2_empty_ref (m : FuzzMetrics)
    {q : List (String × String)} (hq : q ≠ []) :
    compare_ob_v2 m q [] = none := by
  obtain ⟨a, ha⟩ := List.exists_mem_of_ne_nil q hq
  unfold compare_ob_v2
  rw [collect_results_eq_none a ha (per_query_maxima_empty m a)]

/-- On an empty query the scorer returns the `np.mean([])` values:
`nan` for all three scores. -/
theorem compare_ob_v2_empty_query (m : FuzzMetrics)
    (r : List (String × String)) :
    compare_ob_v2 m [] r = some ⟨.nan, .nan, .nan⟩ := rfl

theorem compare_ob_v2_total {m : FuzzMetrics}
    {q r : List (String × String)} {s : SimilarityScores}
    (h : compare_ob_v2 m q r = some s) :
    s.total_similarity_score =
      pfHalf (pfAdd s.operation_similarity_score s.machine_similarity_score) := by
  unfold compare_ob_v2 at h
  cases hcr : collect_results (per_query_maxima m r) q with
  | none => rw [hcr] at h; cases h
  | some maxima =>
    rw [hcr] at h
    cases h
    rfl

theorem collect_results_eq_filterMap {f : α → Option β} :
    ∀ {l : List α} {bs : List β}, collect_results f l = some bs →
      bs = l.filterMap f
  | [], bs, h => by cases h; rfl
  | a :: l, bs, h => by
    simp only [collect_results] at h
    cases hfa : f a with
    | none => rw [hfa] at h; cases h
    | some b₀ =>
      rw [hfa] at h
      cases hrest : collect_results f l with
      | none => rw [hrest] at h; cases h
      | some bs₀ =>
        rw [hrest] at h
        cases h
        rw [List.filterMap_cons_some hfa,
          collect_results_eq_filterMap hrest]

theorem collect_results_none_iff {f : α → Option β} {l : List α} :
    collect_results f l = none ↔ ∃ a ∈ l, f a = none := by
  constructor
  · intro h
    induction l with
    | nil => cases h
    | cons a l ih =>
      simp only [collect_results] at h
      cases hfa : f a with
      | none => exact ⟨a, List.mem_cons_self a l, hfa⟩
      | some b =>
        rw [hfa] at h
        cases hrest : collect_results f l with
        | none =>
          obtain ⟨x, hx, hfx⟩ := ih hrest
          exact ⟨x, List.mem_cons_of_mem a hx, hfx⟩
        | some bs => rw [hrest] at h; cases h
  · rintro ⟨a, ha, hfa⟩
    exact collect_results_eq_none a ha hfa

theorem process_record_total {m : FuzzMetrics} {record : DBRecord}
    {oml : List (String × String)} {res : SimilarityResult}
    (h : process_record m record oml = some res) :
    res.total_similarity_score =
      pfHalf (pfAdd res.operation_similarity_score res.machine_similarity_score) := by
  unfold process_record at h
  cases hc : compare_ob_v2 m oml (get_operation_machine_list_db record.operation_data) with
  | none => rw [hc] at h; cases h
  | some s =>
    rw [hc] at h
    cases h
    exact compare_ob_v2_total hc

theorem process_record_none_iff {m : FuzzMetrics} {record : DBRecord}
    {oml : List (String × String)} :
    process_record m record oml = none ↔
      compare_ob_v2 m oml (get_operation_machine_list_db record.operation_data) = none := by
  unfold process_record
  cases compare_ob_v2 m oml (get_operation_machine_list_db record.operation_data) <;> simp

theorem pySortDesc_perm (l : List SimilarityResult) : (pySortDesc l).Perm l :=
  List.perm_insertionSort resultOrder l

theorem pySortDesc_sorted (l : List SimilarityResult) :
    (pySortDesc l).Sorted resultOrder :=
  List.sorted_insertionSort resultOrder l

theorem ob_score_loop_perm {m : FuzzMetrics} {oml : List (String × String)} :
    ∀ {recs : List DBRecord} {acc l : List SimilarityResult},
      ob_score_loop m oml recs acc = some l →
      l.Perm (acc ++ recs.filterMap fun record => process_record m record oml)
  | [], acc, l, h => by cases h; simp
  | record :: rest, acc, l, h => by
    simp only [ob_score_loop] at h
    cases hc : compare_ob_v2 m oml (get_operation_machine_list_db record.operation_data) with
    | none => rw [hc] at h; cases h
    | some scores =>
      rw [hc] at h
      have ih := ob_score_loop_perm h
      have hpr : process_record m record oml =
          some (mkSimilarityResult record scores) := by
        unfold process_record; rw [hc]; rfl
      rw [@List.filterMap_cons_some _ _
        (fun record => process_record m record oml) record rest _ hpr]
      refine ih.trans ?_
      refine ((pySortDesc_perm _).append_right _).trans ?_
      rw [List.append_assoc, List.singleton_append]

theorem ob_score_loop_sorted {m : FuzzMetrics} {oml : List (String × String)} :
    ∀ {recs : List DBRecord} {acc l : List SimilarityResult},
      ob_score_loop m oml recs acc = some l →
      acc.Sorted resultOrder → l.Sorted resultOrder
  | [], acc, l, h, hs => by cases h; exact hs
  | record :: rest, acc, l, h, hs => by
    simp only [ob_score_loop] at h
    cases hc : compare_ob_v2 m oml (get_operation_machine_list_db record.operation_data) with
    | none => rw [hc] at h; cases h
    | some scores =>
      rw [hc] at h
      exact ob_score_loop_sorted h (pySortDesc_sorted _)

theorem ob_score_loop_none_iff {m : FuzzMetrics} {oml : List (String × String)} :
    ∀ {recs : List DBRecord} {acc : List SimilarityResult},
      ob_score_loop m oml recs acc = none ↔
        ∃ record ∈ recs, process_record m record oml = none
  | [], acc => by simp [ob_score_loop]
  | record :: rest, acc => by
    simp only [ob_score_loop]
    cases hc : compare_ob_v2 m oml (get_operation_machine_list_db record.operation_data) with
    | none =>
      simp only [true_iff]
      exact ⟨record, List.mem_cons_self record rest,
        process_record_none_iff.2 hc⟩
    | some scores =>
      rw [ob_score_loop_none_iff]
      constructor
      · rintro ⟨x, hx, hfx⟩
        exact ⟨x, List.mem_cons_of_mem record hx, hfx⟩
      · rintro ⟨x, hx, hfx⟩
        rcases List.mem_cons.1 hx with rfl | hx'
        · rw [process_record_none_iff] at hfx
          rw [hfx] at hc
          cases hc
        · exact ⟨x, hx', hfx⟩

theorem get_ob_similarity_score_some {m : FuzzMetrics}
    {operation_data : List OperationData} {database_records : List DBRecord}
    {l : List SimilarityResult}
    (h : get_ob_similarity_score m operation_data database_records = some l) :
    l.Sorted resultOrder ∧
      l.Perm (database_records.filterMap fun record =>
        process_record m record (get_operation_machine_list operation_data)) := by
  unfold get_ob_similarity_score at h
  refine ⟨ob_score_loop_sorted h (by simp), ?_⟩
  simpa using ob_score_loop_perm h

theorem get_ob_similarity_score_none_iff {m : FuzzMetrics}
    {operation_data : List OperationData} {database_records : List DBRecord} :
    get_ob_similarity_score m operation_data database_records = none ↔
      ∃ record ∈ database_records,
        process_record m record (get_operation_machine_list operation_data) = none := by
  unfold get_ob_similarity_score
  exact ob_score_loop_none_iff

theorem get_ob_similarity_score_v2_some {m : FuzzMetrics}
    {operation_data : List OperationData} {completion_order : List DBRecord}
    {l : List SimilarityResult}
    (h : get_ob_similarity_score_v2 m operation_data completion_order = some l) :
    l = pySortDesc (completion_order.filterMap fun record =>
      process_record m record (get_operation_machine_list operation_data)) := by
  simp only [get_ob_similarity_score_v2] at h
  cases hc : collect_results (fun record =>
      process_record m record (get_operation_machine_list operation_data))
      completion_order with
  | none => rw [hc] at h; cases h
  | some bs =>
    rw [hc, Option.map_some'] at h
    cases h
    rw [collect_results_eq_filterMap hc]

theorem get_ob_similarity_score_v2_none_iff {m : FuzzMetrics}
    {operation_data : List OperationData} {completion_order : List DBRecord} :
    get_ob_similarity_score_v2 m operation_data completion_order = none ↔
      ∃ record ∈ completion_order,
        process_record m record (get_operation_machine_list operation_data) = none := by
  simp only [get_ob_similarity_score_v2, Option.map_eq_none']
  exact collect_results_none_iff

theorem sorted_perm_distinct_eq :
    ∀ {l₁ l₂ : List SimilarityResult},
      l₁.Sorted resultOrder → l₂.Sorted resultOrder → l₁.Perm l₂ →
      l₁.Pairwise (fun a b =>
        a.total_similarity_score ≠ b.total_similarity_score) →
      l₁ = l₂
  | [], l₂, _, _, hperm, _ => (hperm.nil_eq).symm ▸ rfl
  | a :: t₁, [], _, _, hperm, _ => absurd hperm.symm.nil_eq (by simp)
  | a :: t₁, b :: t₂, hs₁, hs₂, hperm, hd => by
    by_cases hab : a = b
    · subst hab
      have ht : t₁.Perm t₂ := hperm.cons_inv
      rw [sorted_perm_distinct_eq hs₁.of_cons hs₂.of_cons ht hd.of_cons]
    · exfalso
      have hamem : a ∈ b :: t₂ := hperm.mem_iff.1 (List.mem_cons_self a t₁)
      have hat₂ : a ∈ t₂ := by
        rcases List.mem_cons.1 hamem with h | h
        · exact absurd h hab
        · exact h
      have hbmem : b ∈ a :: t₁ := hperm.mem_iff.2 (List.mem_cons_self b t₂)
      have hbt₁ : b ∈ t₁ := by
        rcases List.mem_cons.1 hbmem with h | h
        · exact absurd h.symm hab
        · exact h
      have h₁ : resultOrder a b := List.rel_of_sorted_cons hs₁ b hbt₁
      have h₂ : resultOrder b a := List.rel_of_sorted_cons hs₂ a hat₂
      have heq : a.total_similarity_score = b.total_similarity_score :=
        pfLe_antisymm h₂ h₁
      exact (List.rel_of_pairwise_cons hd hbt₁) heq

theorem get_similarity_score_bounds {m : FuzzMetrics} (hb : boundedMetrics m)
    (text1 text2 : String) :
    0 ≤ get_similarity_score m text1 text2 ∧
      get_similarity_score m text1 text2 ≤ 100 := by
  obtain ⟨⟨h1a, h1b⟩, ⟨h2a, h2b⟩, ⟨h3a, h3b⟩, ⟨h4a, h4b⟩, ⟨h5a, h5b⟩⟩ :=
    hb (preprocess_text text1) (preprocess_text text2)
  unfold get_similarity_score fuzz_similarity
  constructor
  · apply div_nonneg _ (by norm_num : (0:ℚ) ≤ 5)
    linarith
  · rw [div_le_iff (by norm_num : (0:ℚ) < 5)]
    linarith

theorem get_similarity_score_self {m : FuzzMetrics} (hrefl : reflMetrics m)
    (text : String) : get_similarity_score m text text = 100 := by
  obtain ⟨h1, h2, h3, h4, h5⟩ := hrefl (preprocess_text text)
  unfold get_similarity_score fuzz_similarity
  rw [h1, h2, h3, h4, h5]
  norm_num

theorem get_absolute_similarity_score_bounds (text1 text2 : String) :
    0 ≤ get_absolute_similarity_score text1 text2 ∧
      get_absolute_similarity_score text1 text2 ≤ 100 := by
  unfold get_absolute_similarity_score
  split <;> norm_num

theorem get_absolute_similarity_score_self (text : String) :
    get_absolute_similarity_score text text = 100 :=
  if_pos rfl

theorem specMax_mem {l : List ℚ} (h : l ≠ []) : specMax l ∈ l :=
  pythonMax_mem (pythonMax_eq_specMax h)

theorem specMax_eq_of_mem_of_le {l : List ℚ} {c : ℚ} (hne : l ≠ [])
    (hmem : c ∈ l) (hle : ∀ x ∈ l, x ≤ c) : specMax l = c := by
  have h₁ := pythonMax_eq_specMax hne
  have h₂ := pythonMax_eq_of_mem_of_le hmem hle
  rw [h₁] at h₂
  exact Option.some.inj h₂

theorem specMean_const {l : List ℚ} {c : ℚ} (hne : l ≠ [])
    (h : ∀ x ∈ l, x = c) : specMean l = c := by
  have hn := npMean_const hne h
  rw [npMean_ne_nil hne] at hn
  exact PyFloat.num.inj hn

theorem specMean_bounds {l : List ℚ} {lo hi : ℚ} (hne : l ≠ [])
    (h : ∀ x ∈ l, lo ≤ x ∧ x ≤ hi) :
    lo ≤ specMean l ∧ specMean l ≤ hi :=
  npMean_bounds hne h

theorem scorer_spec_bounds {m : FuzzMetrics} (hb : boundedMetrics m)
    {q r : List (String × String)} (hq : q ≠ []) (hr : r ≠ []) :
    (0 ≤ (scorer_spec m q r).1 ∧ (scorer_spec m q r).1 ≤ 100) ∧
    (0 ≤ (scorer_spec m q r).2 ∧ (scorer_spec m q r).2 ≤ 100) := by
  constructor
  · apply specMean_bounds (by simpa using hq)
    intro x hx
    obtain ⟨qq, hqq, rfl⟩ := List.mem_map.1 hx
    have hrm : (r.map fun record => get_similarity_score m qq.1 record.1) ≠ [] := by
      simpa using hr
    obtain ⟨rr, _, hrr⟩ := List.mem_map.1 (specMax_mem hrm)
    rw [← hrr]
    exact get_similarity_score_bounds hb qq.1 rr.1
  · apply specMean_bounds (by simpa using hq)
    intro x hx
    obtain ⟨qq, hqq, rfl⟩ := List.mem_map.1 hx
    have hrm : (r.map fun record => get_absolute_similarity_score qq.2 record.2) ≠ [] := by
      simpa using hr
    obtain ⟨rr, _, hrr⟩ := List.mem_map.1 (specMax_mem hrm)
    rw [← hrr]
    exact get_absolute_similarity_score_bounds qq.2 rr.2

theorem collect_results_eq_some_of_isSome {f : α → Option β} {l : List α}
    (h : ∀ a ∈ l, (f a).isSome) :
    collect_results f l = some (l.filterMap f) := by
  cases hc : collect_results f l with
  | none =>
    obtain ⟨a, ha, hfa⟩ := collect_results_none_iff.1 hc
    have := h a ha
    rw [hfa] at this
    cases this
  | some bs => rw [collect_results_eq_filterMap hc]

theorem get_ob_similarity_score_v2_eq_of_isSome {m : FuzzMetrics}
    {operation_data : List OperationData} {completion_order : List DBRecord}
    (h : ∀ record ∈ completion_order,
      (process_record m record (get_operation_machine_list operation_data)).isSome) :
    get_ob_similarity_score_v2 m operation_data completion_order =
      some (pySortDesc (completion_order.filterMap fun record =>
        process_record m record (get_operation_machine_list operation_data))) := by
  simp only [get_ob_similarity_score_v2]
  rw [collect_results_eq_some_of_isSome h, Option.map_some']

theorem process_record_isSome {m : FuzzMetrics} {record : DBRecord}
    {oml : List (String × String)} (hq : oml ≠ [])
    (hops : get_operation_machine_list_db record.operation_data ≠ []) :
    (process_record m record oml).isSome := by
  unfold process_record
  rw [compare_ob_v2_eq_spec m hq hops]
  rfl

theorem goml_ne_nil {operation_data : List OperationData}
    (h : operation_data ≠ []) :
    get_operation_machine_list operation_data ≠ [] := by
  unfold get_operation_machine_list sort_ob_data
  intro hnil
  apply h
  have hlen := congrArg List.length hnil
  simp only [List.length_map, List.length_insertionSort, List.length_nil] at hlen
  exact List.length_eq_zero.1 hlen

theorem gomldb_ne_nil {operation_data : List (String × String × Int)}
    (h : operation_data ≠ []) :
    get_operation_machine_list_db operation_data ≠ [] := by
  unfold get_operation_machine_list_db
  intro hnil
  apply h
  have hlen := congrArg List.length hnil
  simp only [List.length_map, List.length_insertionSort, List.length_nil] at hlen
  exact List.length_eq_zero.1 hlen

/-! ### Claims -/

/-- Claim C1, counterexample.  The claim says a 2-operation query scored
against an empty reference yields `operation_similarity_score = 0` and
`machine_similarity_score = 0` without raising.  In fact `compare_ob_v2`
reaches `max(operation_name_scores)` with an empty list and raises
`ValueError` (modelled `none`), so it neither returns `0` nor returns at
all. -/
theorem claim_C1_counterexample :
    compare_ob_v2 exactMetrics
      [("Tack side seams", "Zig Zag Machine"),
       ("Attach elastic", "Coverstitch Machine")] [] = none :=
  compare_ob_v2_empty_ref exactMetrics (by simp)

/-- Claim C1, amended: with an empty reference and a non-empty query the
scorer raises (`max()` of an empty sequence, modelled `none`); with an
empty query it returns `nan` scores (`np.mean` of an empty list), not
`0`.  In neither empty case does it return score `0`. -/
theorem claim_C1 (m : FuzzMetrics) (q r : List (String × String)) :
    (r = [] → q ≠ [] → compare_ob_v2 m q r = none) ∧
    (q = [] → compare_ob_v2 m q r =
      some ⟨PyFloat.nan, PyFloat.nan, PyFloat.nan⟩) := by
  constructor
  · rintro rfl hq
    exact compare_ob_v2_empty_ref m hq
  · rintro rfl
    exact compare_ob_v2_empty_query m r

/-- Claim C1, witness: the amended claim evaluated at a one-operation
query against an empty reference and at an empty query against a
one-operation reference. -/
theorem claim_C1_witness :
    compare_ob_v2 exactMetrics [("seam", "machine")] [] = none ∧
    compare_ob_v2 exactMetrics [] [("seam", "machine")] =
      some ⟨PyFloat.nan, PyFloat.nan, PyFloat.nan⟩ :=
  ⟨(claim_C1 exactMetrics [("seam", "machine")] []).1 rfl (by simp),
   (claim_C1 exactMetrics [] [("seam", "machine")]).2 rfl⟩

/-- Claim C2 (confirmed): on non-empty query and reference sequences the
scorer returns, for the operation scalar and the machine scalar
respectively, the arithmetic mean over query pairs of the per-query-pair
maximum over all reference pairs — the operation maximum and the machine
maximum taken independently (`scorer_spec` is the spec-side formula) —
and the total is the mean of the two scalars. -/
theorem claim_C2 (m : FuzzMetrics) (q r : List (String × String))
    (hq : q ≠ []) (hr : r ≠ []) :
    compare_ob_v2 m q r =
      some ⟨PyFloat.num (scorer_spec m q r).1, PyFloat.num (scorer_spec m q r).2,
        PyFloat.num (((scorer_spec m q r).1 + (scorer_spec m q r).2) / 2)⟩ :=
  compare_ob_v2_eq_spec m hq hr

/-- Claim C2, witness: the equality evaluated at a concrete one-pair
query and a concrete two-pair reference. -/
theorem claim_C2_witness :
    compare_ob_v2 exactMetrics [("hem", "m1")] [("fold", "m2"), ("hem", "m1")] =
      some
        ⟨PyFloat.num (scorer_spec exactMetrics [("hem", "m1")]
            [("fold", "m2"), ("hem", "m1")]).1,
         PyFloat.num (scorer_spec exactMetrics [("hem", "m1")]
            [("fold", "m2"), ("hem", "m1")]).2,
         PyFloat.num (((scorer_spec exactMetrics [("hem", "m1")]
            [("fold", "m2"), ("hem", "m1")]).1 +
          (scorer_spec exactMetrics [("hem", "m1")]
            [("fold", "m2"), ("hem", "m1")]).2) / 2)⟩ :=
  claim_C2 exactMetrics _ _ (by simp) (by simp)

/-- Claim C3 (confirmed): the per-pair text-similarity value is the
arithmetic mean of exactly the five metrics (plain ratio,
partial-substring ratio, token-order-insensitive ratio, token-set ratio,
weighted composite ratio), each applied to the case-folded,
whitespace-normalized strings; when the metrics map into `[0,100]` so
does the mean; and the per-pair machine-match value is `100` exactly
when the case-folded, whitespace-normalized machine names are equal,
else `0`. -/
theorem claim_C3 (m : FuzzMetrics) (t1 t2 u1 u2 : String) :
    get_similarity_score m t1 t2 =
      (m.ratio (preprocess_text t1) (preprocess_text t2) +
       m.part_ratio (preprocess_text t1) (preprocess_text t2) +
       m.token_sort_ratio (preprocess_text t1) (preprocess_text t2) +
       m.token_set_ratio (preprocess_text t1) (preprocess_text t2) +
       m.wratio (preprocess_text t1) (preprocess_text t2)) / 5 ∧
    (boundedMetrics m →
      0 ≤ get_similarity_score m t1 t2 ∧ get_similarity_score m t1 t2 ≤ 100) ∧
    get_absolute_similarity_score u1 u2 =
      (if preprocess_text u1 = preprocess_text u2 then 100 else 0) := by
  refine ⟨rfl, ?_, rfl⟩
  intro hb
  exact get_similarity_score_bounds hb t1 t2

/-- Claim C3, witness: the statement evaluated at concrete strings with
the concrete exact-match metric bundle, its boundedness hypothesis
discharged. -/
theorem claim_C3_witness :
    get_similarity_score exactMetrics "Tack  SEAMS" "tack seams" =
      (exactMetrics.ratio (preprocess_text "Tack  SEAMS") (preprocess_text "tack seams") +
       exactMetrics.part_ratio (preprocess_text "Tack  SEAMS") (preprocess_text "tack seams") +
       exactMetrics.token_sort_ratio (preprocess_text "Tack  SEAMS") (preprocess_text "tack seams") +
       exactMetrics.token_set_ratio (preprocess_text "Tack  SEAMS") (preprocess_text "tack seams") +
       exactMetrics.wratio (preprocess_text "Tack  SEAMS") (preprocess_text "tack seams")) / 5 ∧
    (0 ≤ get_similarity_score exactMetrics "Tack  SEAMS" "tack seams" ∧
      get_similarity_score exactMetrics "Tack  SEAMS" "tack seams" ≤ 100) ∧
    get_absolute_similarity_score "Zig Zag" "zig  zag" =
      (if preprocess_text "Zig Zag" = preprocess_text "zig  zag" then 100 else 0) := by
  obtain ⟨h1, h2, h3⟩ := claim_C3 exactMetrics "Tack  SEAMS" "tack seams" "Zig Zag" "zig  zag"
  exact ⟨h1, h2 exactMetrics_bounded, h3⟩

/-- Claim C4, counterexample.  The claim says both enricher variants
sort matching allocation records by `run_efficiency` descending with
null below every number, and produce the same attached records.  In
fact: (i) the database-backed variant sorts with `reverse=True` applied
to the key `(is-null, value)`, so the null-efficiency record is attached
AHEAD of a numeric one; (ii) the datasource variant does not sort at
all, so on the same input the two variants attach different records. -/
theorem claim_C4_counterexample :
    add_allocation_data [⟨1, "c", .num 90, .num 90, .num 90⟩]
        [⟨1, 10, "x", 100, some 50⟩, ⟨1, 11, "y", 100, none⟩] 1 =
      some [⟨⟨1, "c", .num 90, .num 90, .num 90⟩, [⟨1, 11, "y", 100, none⟩]⟩] ∧
    add_allocation_data [⟨1, "c", .num 90, .num 90, .num 90⟩]
        [⟨1, 10, "x", 100, some 50⟩, ⟨1, 11, "y", 100, some 90⟩] 1 =
      some [⟨⟨1, "c", .num 90, .num 90, .num 90⟩, [⟨1, 11, "y", 100, some 90⟩]⟩] ∧
    add_allocation_data_ds [⟨1, "c", .num 90, .num 90, .num 90⟩]
        [⟨1, 10, "x", 100, some 50⟩, ⟨1, 11, "y", 100, some 90⟩] 1 =
      [⟨⟨1, "c", .num 90, .num 90, .num 90⟩, [⟨1, 10, "x", 100, some 50⟩]⟩] ∧
    ([⟨1, 11, "y", 100, some 90⟩] : List AllocationRecord) ≠
      [⟨1, 10, "x", 100, some 50⟩] := by
  refine ⟨by decide, by decide, by decide, by decide⟩

/-- Claim C4, amended: both variants attach to each result only
allocation records whose `layout_id` equals the result's, truncated to
at most `no_of_allocations`; the database-backed variant attaches them
sorted by the `reverse=True` `(is-null, run_efficiency)` key — null
efficiencies FIRST, then numeric descending (`allocOrder`) — while the
datasource variant attaches them in datasource order without sorting
(a sublist of the datasource), so the two variants need not attach the
same records. -/
theorem claim_C4 (top_results : List SimilarityResult)
    (allocs : List AllocationRecord) (n : Nat) (hne : allocs ≠ []) :
    (∃ out, add_allocation_data top_results allocs n = some out ∧
      out.map EnrichedResult.result = top_results ∧
      ∀ e ∈ out,
        (∀ a ∈ e.allocation_data, a.layout_id = e.result.layout_id) ∧
        e.allocation_data.length ≤ n ∧
        e.allocation_data.Pairwise allocOrder) ∧
    ((add_allocation_data_ds top_results allocs n).map EnrichedResult.result =
        top_results ∧
      ∀ e ∈ add_allocation_data_ds top_results allocs n,
        (∀ a ∈ e.allocation_data, a.layout_id = e.result.layout_id) ∧
        e.allocation_data.length ≤ n ∧
        e.allocation_data.Sublist allocs) := by
  constructor
  · refine ⟨top_results.map fun result =>
      ⟨result, (List.insertionSort allocOrder (allocs.filter fun allocation =>
        allocation.layout_id == result.layout_id)).take n⟩, ?_, ?_, ?_⟩
    · unfold add_allocation_data
      rw [if_neg (by simpa using hne)]
    · simp [List.map_map, Function.comp_def]
    · intro e he
      obtain ⟨res, _, rfl⟩ := List.mem_map.1 he
      refine ⟨?_, List.length_take_le _ _, ?_⟩
      · intro a ha
        have ha' := List.mem_of_mem_take ha
        have ha'' := (List.mem_insertionSort allocOrder).1 ha'
        have := List.of_mem_filter ha''
        simpa using this
      · exact (List.sorted_insertionSort allocOrder _).sublist
          (List.take_sublist _ _)
  · constructor
    · simp [add_allocation_data_ds, List.map_map, Function.comp_def]
    · intro e he
      obtain ⟨res, _, rfl⟩ := List.mem_map.1 he
      refine ⟨?_, List.length_take_le _ _, ?_⟩
      · intro a ha
        have ha' := List.mem_of_mem_take ha
        have := List.of_mem_filter ha'
        simpa using this
      · exact (List.take_sublist _ _).trans (List.filter_sublist _)

/-- Claim C4, witness: the amended claim evaluated at a concrete result
list and allocation list. -/
theorem claim_C4_witness :
    (∃ out, add_allocation_data [⟨7, "w", .num 80, .num 80, .num 80⟩]
        [⟨7, 20, "p", 90, some 60⟩] 2 = some out ∧
      out.map EnrichedResult.result = [⟨7, "w", .num 80, .num 80, .num 80⟩] ∧
      ∀ e ∈ out,
        (∀ a ∈ e.allocation_data, a.layout_id = e.result.layout_id) ∧
        e.allocation_data.length ≤ 2 ∧
        e.allocation_data.Pairwise allocOrder) ∧
    ((add_allocation_data_ds [⟨7, "w", .num 80, .num 80, .num 80⟩]
        [⟨7, 20, "p", 90, some 60⟩] 2).map EnrichedResult.result =
        [⟨7, "w", .num 80, .num 80, .num 80⟩] ∧
      ∀ e ∈ add_allocation_data_ds [⟨7, "w", .num 80, .num 80, .num 80⟩]
          [⟨7, 20, "p", 90, some 60⟩] 2,
        (∀ a ∈ e.allocation_data, a.layout_id = e.result.layout_id) ∧
        e.allocation_data.length ≤ 2 ∧
        e.allocation_data.Sublist [⟨7, 20, "p", 90, some 60⟩]) :=
  claim_C4 [⟨7, "w", .num 80, .num 80, .num 80⟩] [⟨7, 20, "p", 90, some 60⟩] 2
    (by simp)

/-- Claim C5, counterexample.  The claim says a failing record is
skipped, its `layout_id` reported, and the other records' results still
returned.  In fact `get_ob_similarity_score_v2` has no per-record
exception handling: with one well-formed record (`layout_id 1`) and one
record whose operation list is empty (`layout_id 2`, whose scoring
raises `ValueError`), the whole call raises (modelled `none`) and the
well-formed record's result is lost. -/
theorem claim_C5_counterexample :
    get_ob_similarity_score_v2 exactMetrics [⟨"a", "m", 1⟩]
      [⟨1, "good", [("a", "m", 1)]⟩, ⟨2, "bad", []⟩] = none := by
  apply get_ob_similarity_score_v2_none_iff.2
  refine ⟨⟨2, "bad", []⟩, by simp, ?_⟩
  rw [process_record_none_iff]
  exact compare_ob_v2_empty_ref exactMetrics (by decide)

/-- Claim C5, amended: a single record's scoring failure is NOT
isolated: if any record in the batch fails to score, the parallel
ranking pass raises as a whole (returns `none`), reporting no skipped
identifier and no results for the remaining records. -/
theorem claim_C5 (m : FuzzMetrics) (operation_data : List OperationData)
    (completion_order : List DBRecord)
    (h : ∃ record ∈ completion_order,
      process_record m record (get_operation_machine_list operation_data) = none) :
    get_ob_similarity_score_v2 m operation_data completion_order = none :=
  get_ob_similarity_score_v2_none_iff.2 h

/-- Claim C5, witness: the amended claim evaluated at a concrete
one-record batch whose record has no operations. -/
theorem claim_C5_witness :
    get_ob_similarity_score_v2 exactMetrics [⟨"b", "k", 1⟩]
      [⟨3, "only", []⟩] = none :=
  claim_C5 exactMetrics [⟨"b", "k", 1⟩] [⟨3, "only", []⟩]
    ⟨⟨3, "only", []⟩, by simp, by
      rw [process_record_none_iff]
      exact compare_ob_v2_empty_ref exactMetrics (by decide)⟩

/-- Claim C6, counterexample.  The claim quantifies over EVERY sequence,
including the empty one; but scoring the empty sequence against itself
returns `np.mean([]) = nan` for every score, not `100`. -/
theorem claim_C6_counterexample :
    compare_ob_v2 exactMetrics [] [] ≠
      some ⟨PyFloat.num 100, PyFloat.num 100, PyFloat.num 100⟩ := by
  rw [compare_ob_v2_empty_query]
  simp

/-- Claim C6, amended: every NON-EMPTY sequence scored against itself
yields operation, machine and total scores of exactly `100`, given the
fuzzywuzzy contract that each metric is `100` on identical strings and
never exceeds `100`. -/
theorem claim_C6 (m : FuzzMetrics) (l : List (String × String)) (hl : l ≠ [])
    (hrefl : reflMetrics m) (hb : boundedMetrics m) :
    compare_ob_v2 m l l =
      some ⟨PyFloat.num 100, PyFloat.num 100, PyFloat.num 100⟩ := by
  rw [compare_ob_v2_eq_spec m hl hl]
  have hop : specMean (l.map fun q =>
      specMax (l.map fun r => get_similarity_score m q.1 r.1)) = 100 := by
    apply specMean_const (by simpa using hl)
    intro x hx
    obtain ⟨q, hq, rfl⟩ := List.mem_map.1 hx
    apply specMax_eq_of_mem_of_le (by simpa using hl)
    · exact List.mem_map.2 ⟨q, hq, get_similarity_score_self hrefl q.1⟩
    · intro y hy
      obtain ⟨rr, _, rfl⟩ := List.mem_map.1 hy
      exact (get_similarity_score_bounds hb q.1 rr.1).2
  have hmach : specMean (l.map fun q =>
      specMax (l.map fun r => get_absolute_similarity_score q.2 r.2)) = 100 := by
    apply specMean_const (by simpa using hl)
    intro x hx
    obtain ⟨q, hq, rfl⟩ := List.mem_map.1 hx
    apply specMax_eq_of_mem_of_le (by simpa using hl)
    · exact List.mem_map.2 ⟨q, hq, get_absolute_similarity_score_self q.2⟩
    · intro y hy
      obtain ⟨rr, _, rfl⟩ := List.mem_map.1 hy
      exact (get_absolute_similarity_score_bounds q.2 rr.2).2
  simp only [scorer_spec, hop, hmach]
  norm_num

/-- Claim C6, witness: the spec's own identity example, scored against
an identical reference with the concrete exact-match metric bundle. -/
theorem claim_C6_witness :
    compare_ob_v2 exactMetrics
      [("Tack side seams", "Zig Zag Machine"), ("Attach elastic", "Coverstitch Machine")]
      [("Tack side seams", "Zig Zag Machine"), ("Attach elastic", "Coverstitch Machine")] =
      some ⟨PyFloat.num 100, PyFloat.num 100, PyFloat.num 100⟩ :=
  claim_C6 exactMetrics _ (by simp) exactMetrics_refl exactMetrics_bounded

/-- Claim C7 (confirmed): every scores dictionary the scorer produces,
and every result the parallel ranking engine produces, has
`total_similarity_score` equal to half the sum of the other two scores
(`pfHalf (pfAdd _ _)` — exactly `(a + b) / 2` whenever the two component
scores are the numbers `a` and `b`). -/
theorem claim_C7 (m : FuzzMetrics) (q r : List (String × String))
    (operation_data : List OperationData) (completion_order : List DBRecord)
    (s : SimilarityScores) (l : List SimilarityResult)
    (hs : compare_ob_v2 m q r = some s)
    (hl : get_ob_similarity_score_v2 m operation_data completion_order = some l) :
    (s.total_similarity_score =
      pfHalf (pfAdd s.operation_similarity_score s.machine_similarity_score)) ∧
    ∀ res ∈ l,
      res.total_similarity_score =
        pfHalf (pfAdd res.operation_similarity_score res.machine_similarity_score) ∧
      ∀ a b : ℚ, res.operation_similarity_score = PyFloat.num a →
        res.machine_similarity_score = PyFloat.num b →
        res.total_similarity_score = PyFloat.num ((a + b) / 2) := by
  refine ⟨compare_ob_v2_total hs, ?_⟩
  have hl' := get_ob_similarity_score_v2_some hl
  subst hl'
  intro res hres
  have hres' := (pySortDesc_perm _).mem_iff.1 hres
  obtain ⟨record, hrec, hpr⟩ := List.mem_filterMap.1 hres'
  have htot := process_record_total hpr
  refine ⟨htot, ?_⟩
  intro a b ha hbm
  rw [htot, ha, hbm]
  rfl

/-- Claim C7, witness: the statement evaluated on a concrete scorer call
and a concrete one-record ranking run, both hypotheses discharged by the
scorer normal form and the all-records-succeed characterization. -/
theorem claim_C7_witness :
    ((⟨PyFloat.num (scorer_spec exactMetrics [("x", "m")] [("y", "n")]).1,
       PyFloat.num (scorer_spec exactMetrics [("x", "m")] [("y", "n")]).2,
       PyFloat.num (((scorer_spec exactMetrics [("x", "m")] [("y", "n")]).1 +
         (scorer_spec exactMetrics [("x", "m")] [("y", "n")]).2) / 2)⟩ :
        SimilarityScores).total_similarity_score =
      pfHalf (pfAdd
        (⟨PyFloat.num (scorer_spec exactMetrics [("x", "m")] [("y", "n")]).1,
          PyFloat.num (scorer_spec exactMetrics [("x", "m")] [("y", "n")]).2,
          PyFloat.num (((scorer_spec exactMetrics [("x", "m")] [("y", "n")]).1 +
            (scorer_spec exactMetrics [("x", "m")] [("y", "n")]).2) / 2)⟩ :
          SimilarityScores).operation_similarity_score
        (⟨PyFloat.num (scorer_spec exactMetrics [("x", "m")] [("y", "n")]).1,
          PyFloat.num (scorer_spec exactMetrics [("x", "m")] [("y", "n")]).2,
          PyFloat.num (((scorer_spec exactMetrics [("x", "m")] [("y", "n")]).1 +
            (scorer_spec exactMetrics [("x", "m")] [("y", "n")]).2) / 2)⟩ :
          SimilarityScores).machine_similarity_score)) ∧
    ∀ res ∈ pySortDesc ([(⟨4, "w", [("a", "m", 1)]⟩ : DBRecord)].filterMap
        fun record => process_record exactMetrics record
          (get_operation_machine_list [⟨"a", "m", 1⟩])),
      res.total_similarity_score =
        pfHalf (pfAdd res.operation_similarity_score res.machine_similarity_score) ∧
      ∀ a b : ℚ, res.operation_similarity_score = PyFloat.num a →
        res.machine_similarity_score = PyFloat.num b →
        res.total_similarity_score = PyFloat.num ((a + b) / 2) :=
  claim_C7 exactMetrics [("x", "m")] [("y", "n")] [⟨"a", "m", 1⟩]
    [⟨4, "w", [("a", "m", 1)]⟩] _ _
    (compare_ob_v2_eq_spec exactMetrics (by simp) (by simp))
    (get_ob_similarity_score_v2_eq_of_isSome (by
      intro record hrec
      rw [List.mem_singleton.1 hrec]
      exact process_record_isSome (by decide) (by decide)))

/-- Claim C8 (confirmed): on non-empty query and reference sequences,
with metrics landing in `[0,100]` (the fuzzywuzzy contract), the
operation and machine score scalars both lie in `[0, 100]`. -/
theorem claim_C8 (m : FuzzMetrics) (q r : List (String × String))
    (hq : q ≠ []) (hr : r ≠ []) (hb : boundedMetrics m) :
    ∃ a b : ℚ, compare_ob_v2 m q r =
        some ⟨PyFloat.num a, PyFloat.num b, PyFloat.num ((a + b) / 2)⟩ ∧
      0 ≤ a ∧ a ≤ 100 ∧ 0 ≤ b ∧ b ≤ 100 := by
  obtain ⟨⟨h1, h2⟩, h3, h4⟩ := scorer_spec_bounds hb hq hr
  exact ⟨_, _, compare_ob_v2_eq_spec m hq hr, h1, h2, h3, h4⟩

/-- Claim C8, witness: the bounds evaluated at a concrete query and
reference with the concrete exact-match metric bundle. -/
theorem claim_C8_witness :
    ∃ a b : ℚ, compare_ob_v2 exactMetrics [("p", "q")] [("r", "s")] =
        some ⟨PyFloat.num a, PyFloat.num b, PyFloat.num ((a + b) / 2)⟩ ∧
      0 ≤ a ∧ a ≤ 100 ∧ 0 ≤ b ∧ b ≤ 100 :=
  claim_C8 exactMetrics [("p", "q")] [("r", "s")] (by simp) (by simp)
    exactMetrics_bounded

theorem get_ob_similarity_score_isSome {m : FuzzMetrics}
    {operation_data : List OperationData} {database_records : List DBRecord}
    (h : ∀ record ∈ database_records,
      (process_record m record (get_operation_machine_list operation_data)).isSome) :
    ∃ l, get_ob_similarity_score m operation_data database_records = some l := by
  cases hc : get_ob_similarity_score m operation_data database_records with
  | none =>
    obtain ⟨record, hrec, hf⟩ := get_ob_similarity_score_none_iff.1 hc
    have := h record hrec
    rw [hf] at this
    cases this
  | some l => exact ⟨l, rfl⟩

/-- Claim C9, counterexample.  The claim quantifies over every query and
corpus; but for a non-empty query and a corpus holding one record with
no operations, the ranking engine raises (the record's scoring raises
`ValueError` and `get_ob_similarity_score_v2` propagates it), returning
no list at all rather than one `SimilarityResult` for that record. -/
theorem claim_C9_counterexample :
    get_ob_similarity_score_v2 exactMetrics [⟨"c", "m", 1⟩]
      [⟨5, "L5", []⟩] = none := by
  apply get_ob_similarity_score_v2_none_iff.2
  refine ⟨⟨5, "L5", []⟩, by simp, ?_⟩
  rw [process_record_none_iff]
  exact compare_ob_v2_empty_ref exactMetrics (by decide)

/-- Claim C9, amended: whenever every record scores without raising —
the query is non-empty and every corpus record has at least one
operation — the ranking engine returns exactly one result per corpus
record (same length, each record contributing its own result), sorted
descending by `total_similarity_score`; in particular, an empty corpus
yields the empty list.  A record with no operations instead aborts the
whole call. -/
theorem claim_C9 (m : FuzzMetrics) (operation_data : List OperationData)
    (database_records completion_order : List DBRecord)
    (horder : completion_order.Perm database_records)
    (hq : operation_data ≠ [])
    (hops : ∀ record ∈ database_records, record.operation_data ≠ []) :
    ∃ l, get_ob_similarity_score_v2 m operation_data completion_order = some l ∧
      l.length = database_records.length ∧
      l.Sorted resultOrder ∧
      l.Pairwise (fun a b => ∀ x y : ℚ,
        a.total_similarity_score = PyFloat.num x →
        b.total_similarity_score = PyFloat.num y → y ≤ x) ∧
      (∀ record ∈ database_records, ∃ res ∈ l,
        process_record m record (get_operation_machine_list operation_data) = some res) ∧
      (database_records = [] → l = []) := by
  have hqml := goml_ne_nil hq
  have hsucc : ∀ record ∈ completion_order,
      (process_record m record (get_operation_machine_list operation_data)).isSome := by
    intro record hrec
    exact process_record_isSome hqml
      (gomldb_ne_nil (hops record (horder.subset hrec)))
  refine ⟨_, get_ob_similarity_score_v2_eq_of_isSome hsucc, ?_, ?_, ?_, ?_, ?_⟩
  · have h₁ := (pySortDesc_perm (completion_order.filterMap fun record =>
      process_record m record (get_operation_machine_list operation_data))).length_eq
    have h₂ := collect_results_length (collect_results_eq_some_of_isSome hsucc)
    rw [h₁, h₂, horder.length_eq]
  · exact pySortDesc_sorted _
  · refine List.Pairwise.imp ?_ (pySortDesc_sorted _)
    intro a b hab x y hax hby
    have : pfLe b.total_similarity_score a.total_similarity_score := hab
    rw [hax, hby] at this
    exact this
  · intro record hrec
    have hrec' : record ∈ completion_order := horder.mem_iff.2 hrec
    obtain ⟨res, hres⟩ := Option.isSome_iff_exists.1 (hsucc record hrec')
    refine ⟨res, ?_, hres⟩
    exact (pySortDesc_perm _).mem_iff.2 (List.mem_filterMap.2 ⟨record, hrec', hres⟩)
  · intro hnil
    subst hnil
    rw [horder.eq_nil]
    rfl

/-- Claim C9, witness: a concrete two-record corpus with a completion
order different from submission order; the permutation, non-emptiness
and per-record hypotheses are discharged concretely. -/
theorem claim_C9_witness :
    ∃ l, get_ob_similarity_score_v2 exactMetrics [⟨"a", "m", 1⟩]
        [⟨9, "L9", [("b", "n", 1)]⟩, ⟨8, "L8", [("a", "m", 1)]⟩] = some l ∧
      l.length = ([⟨8, "L8", [("a", "m", 1)]⟩, ⟨9, "L9", [("b", "n", 1)]⟩] :
        List DBRecord).length ∧
      l.Sorted resultOrder ∧
      l.Pairwise (fun a b => ∀ x y : ℚ,
        a.total_similarity_score = PyFloat.num x →
        b.total_similarity_score = PyFloat.num y → y ≤ x) ∧
      (∀ record ∈ ([⟨8, "L8", [("a", "m", 1)]⟩, ⟨9, "L9", [("b", "n", 1)]⟩] :
          List DBRecord), ∃ res ∈ l,
        process_record exactMetrics record
          (get_operation_machine_list [⟨"a", "m", 1⟩]) = some res) ∧
      (([⟨8, "L8", [("a", "m", 1)]⟩, ⟨9, "L9", [("b", "n", 1)]⟩] :
          List DBRecord) = [] → l = []) :=
  claim_C9 exactMetrics [⟨"a", "m", 1⟩]
    [⟨8, "L8", [("a", "m", 1)]⟩, ⟨9, "L9", [("b", "n", 1)]⟩]
    [⟨9, "L9", [("b", "n", 1)]⟩, ⟨8, "L8", [("a", "m", 1)]⟩]
    (List.Perm.swap _ _ _) (by simp) (by simp)

/-- Claim C10 (confirmed): for any completion order of the
process-pool path (any permutation of the corpus), the sequential path
and the parallel path raise together, and when both return, the result
lists are permutations of each other — identical whenever all
`total_similarity_score` values are pairwise distinct. -/
theorem claim_C10 (m : FuzzMetrics) (operation_data : List OperationData)
    (database_records completion_order : List DBRecord)
    (horder : completion_order.Perm database_records) :
    (get_ob_similarity_score m operation_data database_records = none ↔
      get_ob_similarity_score_v2 m operation_data completion_order = none) ∧
    ∀ l₁ l₂, get_ob_similarity_score m operation_data database_records = some l₁ →
      get_ob_similarity_score_v2 m operation_data completion_order = some l₂ →
      l₁.Perm l₂ ∧
      (l₁.Pairwise (fun a b =>
        a.total_similarity_score ≠ b.total_similarity_score) → l₁ = l₂) := by
  constructor
  · rw [get_ob_similarity_score_none_iff, get_ob_similarity_score_v2_none_iff]
    constructor
    · rintro ⟨record, hrec, hf⟩
      exact ⟨record, horder.mem_iff.2 hrec, hf⟩
    · rintro ⟨record, hrec, hf⟩
      exact ⟨record, horder.subset hrec, hf⟩
  · intro l₁ l₂ h₁ h₂
    obtain ⟨hs₁, hp₁⟩ := get_ob_similarity_score_some h₁
    have hl₂ := get_ob_similarity_score_v2_some h₂
    have hperm : l₁.Perm l₂ := by
      rw [hl₂]
      exact hp₁.trans ((horder.filterMap _).symm.trans (pySortDesc_perm _).symm)
    refine ⟨hperm, ?_⟩
    intro hdistinct
    exact sorted_perm_distinct_eq hs₁ (hl₂ ▸ pySortDesc_sorted _) hperm hdistinct

/-- Claim C10, witness: the equivalence evaluated on a concrete
two-record corpus ranked by the sequential path in submission order and
by the parallel path in the swapped completion order. -/
theorem claim_C10_witness :
    ∃ l₁ l₂,
      get_ob_similarity_score exactMetrics [⟨"a", "m", 1⟩]
        [⟨8, "L8", [("a", "m", 2)]⟩, ⟨9, "L9", [("b", "n", 2)]⟩] = some l₁ ∧
      get_ob_similarity_score_v2 exactMetrics [⟨"a", "m", 1⟩]
        [⟨9, "L9", [("b", "n", 2)]⟩, ⟨8, "L8", [("a", "m", 2)]⟩] = some l₂ ∧
      l₁.Perm l₂ ∧
      (l₁.Pairwise (fun a b =>
        a.total_similarity_score ≠ b.total_similarity_score) → l₁ = l₂) := by
  have hsucc : ∀ record ∈ ([⟨8, "L8", [("a", "m", 2)]⟩, ⟨9, "L9", [("b", "n", 2)]⟩] :
      List DBRecord),
      (process_record exactMetrics record
        (get_operation_machine_list [⟨"a", "m", 1⟩])).isSome := by
    intro record hrec
    rcases List.mem_cons.1 hrec with rfl | hrec'
    · exact process_record_isSome (by decide) (by decide)
    · rw [List.mem_singleton.1 hrec']
      exact process_record_isSome (by decide) (by decide)
  obtain ⟨l₁, hl₁⟩ := get_ob_similarity_score_isSome hsucc
  have hc10 := claim_C10 exactMetrics [⟨"a", "m", 1⟩]
    [⟨8, "L8", [("a", "m", 2)]⟩, ⟨9, "L9", [("b", "n", 2)]⟩]
    [⟨9, "L9", [("b", "n", 2)]⟩, ⟨8, "L8", [("a", "m", 2)]⟩]
    (List.Perm.swap _ _ _)
  have hsucc' : ∀ record ∈ ([⟨9, "L9", [("b", "n", 2)]⟩, ⟨8, "L8", [("a", "m", 2)]⟩] :
      List DBRecord),
      (process_record exactMetrics record
        (get_operation_machine_list [⟨"a", "m", 1⟩])).isSome := by
    intro record hrec
    exact hsucc record ((List.Perm.swap _ _ _).subset hrec)
  have hl₂ := get_ob_similarity_score_v2_eq_of_isSome hsucc'
  exact ⟨l₁, _, hl₁, hl₂, hc10.2 l₁ _ hl₁ hl₂⟩
